import Mathlib

/-!
Verification of the terraform dependency-inference core of this repository.

The pipeline under test is: extract `(name, source)` module references from
source files, classify each source string as local or remote, resolve local
relative paths against the declaring file's directory into canonical
root-relative paths, and accumulate build-unit addresses as an ordered,
deduplicated sequence.  The implementation module itself is not present in
the source tree (only its test, `dependency_inference_test.py`, and the
spec are), so the definitions below are modelled from the spec and checked
against the expectations recorded in the test file.  The auxiliary
hex-string check `is_hex_string` is embedded directly from
`src/python/pants/reporting/reporting.py`.
-/

namespace TerraformInference

/-- Errors of the path resolver.  `pathEscapesRoot` corresponds to the
`ValueError` raised by `resolve_pure_path` (surfaced as `PathEscapesRoot`
in the spec) when a `..` segment would traverse above the analysis root. -/
inductive ResolveError where
  | pathEscapesRoot
deriving DecidableEq, Repr

/-- Split a list of characters into `/`-separated nonempty segments.
`cur` holds the characters of the current segment in reverse. -/
def splitSegsAux : List Char → List Char → List String
  | [], cur => if cur = [] then [] else [String.mk cur.reverse]
  | c :: cs, cur =>
    if c = '/' then
      if cur = [] then splitSegsAux cs []
      else String.mk cur.reverse :: splitSegsAux cs []
    else splitSegsAux cs (c :: cur)

/-- Split a path string into its `/`-separated segments (empty segments
dropped, as `PurePath.parts` does for repeated separators). -/
def splitPath (s : String) : List String :=
  splitSegsAux s.toList []

/-- Join segments back into a `/`-separated path string. -/
def joinPath (segs : List String) : String :=
  String.intercalate "/" segs

/-- Modelled from the spec: the core of `resolve_pure_path` (PathResolver,
spec §4.1), whose implementation file is absent from the tree.  Starting
from the anchor directory's segments, process the relative path's segments
left to right: `.` is a no-op, `..` pops the last accumulated segment and
fails with `PathEscapesRoot` when the accumulator is already empty, and
any other segment is pushed. -/
def resolveSegs : List String → List String → Except ResolveError (List String)
  | acc, [] => .ok acc
  | acc, s :: rest =>
    if s = "." then resolveSegs acc rest
    else if s = ".." then
      match acc with
      | [] => .error .pathEscapesRoot
      | _ => resolveSegs acc.dropLast rest
    else resolveSegs (acc ++ [s]) rest

/-- Modelled from the spec: `resolve_pure_path(base, relative_path)`
(PathResolver, spec §4.1) on path strings — resolve a relative path
against an anchor directory into a canonical root-relative path, or fail
with `PathEscapesRoot`. -/
def resolve_pure_path (base relative : String) : Except ResolveError String :=
  (resolveSegs (splitPath base) (splitPath relative)).map joinPath

/-- Trim leading and trailing whitespace from a character list. -/
def trimChars (cs : List Char) : List Char :=
  ((cs.dropWhile Char.isWhitespace).reverse.dropWhile Char.isWhitespace).reverse

/-- Trim leading and trailing whitespace from a string. -/
def trimStr (s : String) : String :=
  String.mk (trimChars s.toList)

/-- `pre` is a leading piece of `s` (by characters). -/
def startsWithStr (pre s : String) : Bool :=
  pre.toList.isPrefixOf s.toList

/-- Classification of a raw module source string (spec §4.2). -/
inductive Classification where
  | localRef (relative : String)
  | remote
deriving DecidableEq, Repr

/-- Modelled from the spec: the ReferenceClassifier (spec §4.2), whose
implementation file is absent from the tree.  A source string denotes a
local reference iff, after trimming, it begins with `./` or `../`; such a
string starts with a dot segment and so carries no scheme, host or
registry coordinate.  Every other form is remote. -/
def classify (raw : String) : Classification :=
  let t := trimStr raw
  if startsWithStr "./" t || startsWithStr "../" t then .localRef t
  else .remote

/-- A module reference extracted from a source file: its declared name and
its raw source string (spec §3, ModuleReference; the declaring file is
carried separately as the anchor directory). -/
structure ModuleRef where
  name : String
  source : String
deriving DecidableEq, Repr

/-- Modelled from the spec: the line-oriented output of the extraction
subprocess (spec §6) for the references of one file whose directory is
`dir` — one line per local reference, each line the resolved root-relative
path; remote references are never emitted; a path escaping the root aborts
the whole run. -/
def emitLines (dir : String) : List ModuleRef → Except ResolveError (List String)
  | [] => .ok []
  | r :: rs =>
    match classify r.source with
    | .remote => emitLines dir rs
    | .localRef rel =>
      match resolve_pure_path dir rel with
      | .error e => .error e
      | .ok p =>
        match emitLines dir rs with
        | .error e => .error e
        | .ok ls => .ok (p :: ls)

/-- The inference result exposed to the build engine (spec §3):
an ordered, deduplicated sequence of build-unit identities plus the fixed
capability flag. -/
structure InferredDependencies where
  addresses : List String
  sibling_dependencies_inferrable : Bool
deriving DecidableEq, Repr

/-- Insert into an ordered-deduplicated sequence: first insertion wins
position, later duplicates are dropped (the `FrozenOrderedSet` semantics
of spec §3). -/
def insertAddr (acc : List String) (a : String) : List String :=
  if a ∈ acc then acc else acc ++ [a]

/-- First-occurrence deduplication of a list, by repeated `insertAddr`. -/
def dedupFirst (l : List String) : List String :=
  l.foldl insertAddr []

/-- Modelled from the spec: the resolved local paths of a reference list in
occurrence order (duplicates kept), remote references dropped, a
reference resolving to the declaring unit's own directory excluded
(spec §4.4), and any `PathEscapesRoot` fatal for the whole call. -/
def resolvedLocalPaths (anchor : String) : List ModuleRef → Except ResolveError (List String)
  | [] => .ok []
  | r :: rs =>
    match classify r.source with
    | .remote => resolvedLocalPaths anchor rs
    | .localRef rel =>
      match resolve_pure_path anchor rel with
      | .error e => .error e
      | .ok p =>
        match resolvedLocalPaths anchor rs with
        | .error e => .error e
        | .ok ls => .ok (if p = anchor then ls else p :: ls)

/-- Modelled from the spec: the accumulating loop of the
DependencyInferencer (spec §4.4) over the reference list, threading the
ordered-deduplicated address accumulator. -/
def inferGo (anchor : String) (acc : List String) :
    List ModuleRef → Except ResolveError (List String)
  | [] => .ok acc
  | r :: rs =>
    match classify r.source with
    | .remote => inferGo anchor acc rs
    | .localRef rel =>
      match resolve_pure_path anchor rel with
      | .error e => .error e
      | .ok p =>
        if p = anchor then inferGo anchor acc rs
        else inferGo anchor (insertAddr acc p) rs

/-- Modelled from the spec: `infer` (DependencyInferencer, spec §4.4),
whose implementation file is absent from the tree.  Classify each
reference, resolve local ones against the declaring unit's directory,
exclude remote references and self-references, accumulate the canonical
paths as build-unit identities in an ordered deduplicated sequence, and
return `sibling_dependencies_inferrable = false` unconditionally.
Address mapping is modelled as the identity on canonical directories, as
in the test's `Address(path)` expectations. -/
def infer (anchor : String) (refs : List ModuleRef) :
    Except ResolveError InferredDependencies :=
  (inferGo anchor [] refs).map (fun as => ⟨as, false⟩)

/-- A path segment is plain when it is neither `.` nor `..`. -/
def plainSeg (s : String) : Prop := s ≠ "." ∧ s ≠ ".."

/-- Whether a reference classifies as local (Boolean form, for filtering). -/
def isLocalRef (r : ModuleRef) : Bool :=
  match classify r.source with
  | .localRef _ => true
  | .remote => false

end TerraformInference

namespace Reporting

/-- Embedded from `src/python/pants/reporting/reporting.py`: `is_hex_ch` —
the character's code point lies in the range of `0`-`9`, `a`-`f` or
`A`-`F`. -/
def is_hex_ch (ch : Char) : Bool :=
  (decide ('0'.toNat ≤ ch.toNat) && decide (ch.toNat ≤ '9'.toNat)) ||
  (decide ('a'.toNat ≤ ch.toNat) && decide (ch.toNat ≤ 'f'.toNat)) ||
  (decide ('A'.toNat ≤ ch.toNat) && decide (ch.toNat ≤ 'F'.toNat))

/-- Embedded from `src/python/pants/reporting/reporting.py`:
`is_hex_string` — every character of the string is a hex character. -/
def is_hex_string (id_value : String) : Bool :=
  id_value.toList.all is_hex_ch

end Reporting

open TerraformInference Reporting

/-- C1: resolving a relative path whose leading `..` segments pop exactly
to the analysis root succeeds: `resolve("foo/bar/hello/world",
"../../../../grok")` returns `"grok"` — the accumulator is emptied and
then `"grok"` is pushed, with no error. -/
theorem resolve_pops_to_root :
    resolve_pure_path "foo/bar/hello/world" "../../../../grok" = .ok "grok" := by
  rfl

/-- C6: ordinary `..` traversal: `resolve("foo/bar/hello/world",
"../../grok")` returns `"foo/bar/grok"` — each `..` pops one trailing
segment of the anchor and the plain segment is then appended. -/
theorem resolve_ordinary_traversal :
    resolve_pure_path "foo/bar/hello/world" "../../grok" = .ok "foo/bar/grok" := by
  rfl

/-- C7: `.` segments are no-ops: `resolve("foo/bar/hello/world",
"./grok")` returns `"foo/bar/hello/world/grok"` — the leading `./`
contributes nothing and the remaining segment is appended unchanged. -/
theorem resolve_dot_noop :
    resolve_pure_path "foo/bar/hello/world" "./grok" = .ok "foo/bar/hello/world/grok" := by
  rfl

/-- C2: over-traversal fails: `resolve("foo/bar/hello/world",
"../../../../../grok")` fails with `PathEscapesRoot`, and in general a
`..` processed while the accumulating path is already empty fails rather
than being clamped. -/
theorem resolve_escapes_root :
    resolve_pure_path "foo/bar/hello/world" "../../../../../grok"
      = .error .pathEscapesRoot
    ∧ ∀ rest : List String,
        resolveSegs [] (".." :: rest) = .error .pathEscapesRoot := by
  refine ⟨rfl, fun rest => ?_⟩
  simp [resolveSegs]

/-- C5: extraction subprocess output: for a file in directory `foo`
declaring module references with sources `"../grok"` and
`"./hello/./world"`, the emitted standard-output lines are exactly
`grok` and `foo/hello/world` — resolved root-relative `/`-separated local
paths, remote references never emitted. -/
theorem emit_lines_example :
    emitLines "foo" [⟨"foo", "../grok"⟩, ⟨"bar", "./hello/./world"⟩]
      = .ok ["grok", "foo/hello/world"] := by
  rfl

/-- C3: end-to-end inference for a build unit at `src/tf/resources/grok`
declaring module references with sources `../../modules/foo`,
`../../modules/foo/bar`, `./subdir` and one remote registry reference:
the addresses are exactly `[src/tf/modules/foo, src/tf/modules/foo/bar,
src/tf/resources/grok/subdir]` in first-occurrence order with no
duplicates, the remote reference excluded, and
`sibling_dependencies_inferrable = false`. -/
theorem infer_end_to_end :
    infer "src/tf/resources/grok"
      [⟨"foo", "../../modules/foo"⟩,
       ⟨"bar", "../../modules/foo/bar"⟩,
       ⟨"subdir", "./subdir"⟩,
       ⟨"external", "app.terraform.io/example-corp/k8s-cluster/azurerm"⟩]
      = .ok ⟨["src/tf/modules/foo", "src/tf/modules/foo/bar",
              "src/tf/resources/grok/subdir"], false⟩ := by
  rfl

/-- C10: `is_hex_string s` is `true` iff every character of `s` has a code
point in the range of `0`-`9`, `a`-`f` or `A`-`F` (uppercase hex digits
accepted); in particular it returns `true` on the empty string. -/
theorem is_hex_string_spec :
    (∀ s : String, is_hex_string s = true ↔
      ∀ c ∈ s.toList,
        ('0'.toNat ≤ c.toNat ∧ c.toNat ≤ '9'.toNat) ∨
        ('a'.toNat ≤ c.toNat ∧ c.toNat ≤ 'f'.toNat) ∨
        ('A'.toNat ≤ c.toNat ∧ c.toNat ≤ 'F'.toNat))
    ∧ is_hex_string "" = true := by
  constructor
  · intro s
    simp [is_hex_string, List.all_eq_true, is_hex_ch, or_assoc]
  · rfl

theorem inferGo_filter (anchor : String) (refs : List ModuleRef) (acc : List String) :
    inferGo anchor acc (refs.filter isLocalRef) = inferGo anchor acc refs := by
  induction refs generalizing acc with
  | nil => rfl
  | cons r rs ih =>
    cases hc : classify r.source with
    | remote =>
      have hl : isLocalRef r = false := by simp [isLocalRef, hc]
      simp [List.filter_cons, hl, inferGo, hc, ih]
    | localRef rel =>
      have hl : isLocalRef r = true := by simp [isLocalRef, hc]
      simp only [List.filter_cons, hl, ite_true]
      simp only [inferGo, hc]
      cases hp : resolve_pure_path anchor rel with
      | error e => simp [hp]
      | ok p =>
        simp only [hp]
        by_cases hpa : p = anchor
        · simp [hpa, ih]
        · simp [hpa, ih]

/-- C4: classification totality and exclusivity: every raw source string
classifies as exactly one of local or remote; it classifies local iff the
trimmed string begins with `./` or `../`; and remote references are
excluded from inference entirely — dropping them from the input leaves
the inference result unchanged. -/
theorem classify_total_exclusive :
    (∀ s : String,
        ((∃ p, classify s = .localRef p) ↔
          (startsWithStr "./" (trimStr s) || startsWithStr "../" (trimStr s)) = true)
        ∧ ¬((∃ p, classify s = .localRef p) ∧ classify s = .remote))
    ∧ ∀ (anchor : String) (refs : List ModuleRef),
        infer anchor (refs.filter isLocalRef) = infer anchor refs := by
  refine ⟨fun s => ⟨⟨?_, ?_⟩, ?_⟩, fun anchor refs => ?_⟩
  · rintro ⟨p, hp⟩
    by_cases h : (startsWithStr "./" (trimStr s) || startsWithStr "../" (trimStr s)) = true
    · exact h
    · have : classify s = .remote := by simp [classify, h]
      rw [this] at hp
      exact Classification.noConfusion hp
  · intro h
    exact ⟨trimStr s, by simp [classify, h]⟩
  · rintro ⟨⟨p, hp⟩, hr⟩
    rw [hp] at hr
    exact Classification.noConfusion hr
  · unfold infer
    rw [inferGo_filter]

theorem resolveSegs_plain_append (p : List String) (hp : ∀ s ∈ p, plainSeg s) :
    ∀ acc : List String, resolveSegs acc p = .ok (acc ++ p) := by
  induction p with
  | nil => intro acc; simp [resolveSegs]
  | cons s rest ih =>
    intro acc
    have hs := hp s (List.mem_cons_self s rest)
    simp only [resolveSegs]
    rw [if_neg hs.1, if_neg hs.2]
    rw [ih (fun t ht => hp t (List.mem_cons_of_mem s ht)) (acc ++ [s])]
    simp

theorem resolveSegs_ok_plain (r : List String) :
    ∀ acc : List String, (∀ s ∈ acc, plainSeg s) →
    ∀ p : List String, resolveSegs acc r = .ok p → ∀ s ∈ p, plainSeg s := by
  induction r with
  | nil =>
    intro acc hacc p h
    simp only [resolveSegs, Except.ok.injEq] at h
    exact h ▸ hacc
  | cons s rest ih =>
    intro acc hacc p h
    simp only [resolveSegs] at h
    by_cases h1 : s = "."
    · rw [if_pos h1] at h
      exact ih acc hacc p h
    · rw [if_neg h1] at h
      by_cases h2 : s = ".."
      · rw [if_pos h2] at h
        cases acc with
        | nil => exact Except.noConfusion h
        | cons a as =>
          exact ih _ (fun t ht => hacc t ((List.dropLast_sublist _).subset ht)) p h
      · rw [if_neg h2] at h
        refine ih (acc ++ [s]) ?_ p h
        intro t ht
        rcases List.mem_append.mp ht with hta | htb
        · exact hacc t hta
        · rw [List.mem_singleton.mp htb]
          exact ⟨h1, h2⟩

/-- C8: `resolveSegs` is deterministic (equal inputs give equal results)
and idempotent under re-resolution: a canonical anchor directory (one
with no `.` or `..` segments) and any relative segment list that resolve
successfully produce a path that, re-resolved against the analysis root,
reproduces itself. -/
theorem resolve_det_idem :
    (∀ d r d' r' : List String, d = d' → r = r' → resolveSegs d r = resolveSegs d' r')
    ∧ ∀ (d r p : List String), (∀ s ∈ d, plainSeg s) →
        resolveSegs d r = .ok p → resolveSegs [] p = .ok p := by
  constructor
  · intro d r d' r' hd hr
    rw [hd, hr]
  · intro d r p hd h
    have hp := resolveSegs_ok_plain r d hd p h
    have h2 := resolveSegs_plain_append p hp []
    simpa using h2

/-- Witness for C8 at concrete inputs: the hypotheses hold at
`d = ["foo"]`, `r = ["..", "grok"]`, `p = ["grok"]`, and the resolutions
evaluate as the theorem states. -/
theorem resolve_det_idem_witness :
    (resolveSegs ["a"] ["b"] = resolveSegs ["a"] ["b"])
    ∧ ((∀ s ∈ (["foo"] : List String), plainSeg s)
        ∧ resolveSegs ["foo"] ["..", "grok"] = .ok ["grok"]
        ∧ resolveSegs [] ["grok"] = .ok ["grok"]) :=
  ⟨resolve_det_idem.1 ["a"] ["b"] ["a"] ["b"] rfl rfl,
   by simp [plainSeg], rfl,
   resolve_det_idem.2 ["foo"] ["..", "grok"] ["grok"] (by simp [plainSeg]) rfl⟩

theorem inferGo_eq_fold (anchor : String) (refs : List ModuleRef) :
    ∀ acc : List String,
      inferGo anchor acc refs
        = (resolvedLocalPaths anchor refs).map (fun l => l.foldl insertAddr acc) := by
  induction refs with
  | nil => intro acc; rfl
  | cons r rs ih =>
    intro acc
    cases hc : classify r.source with
    | remote =>
      simp only [inferGo, resolvedLocalPaths, hc]
      exact ih acc
    | localRef rel =>
      simp only [inferGo, resolvedLocalPaths, hc]
      cases hp : resolve_pure_path anchor rel with
      | error e => rfl
      | ok p =>
        cases hr : resolvedLocalPaths anchor rs with
        | error e =>
          by_cases hpa : p = anchor
          · simp [hpa, ih, hr, Except.map]
          · simp [hpa, ih, hr, Except.map]
        | ok ls =>
          by_cases hpa : p = anchor
          · simp [hpa, ih, hr, Except.map]
          · simp [hpa, ih, hr, Except.map]

theorem foldl_insertAddr_nodup (l : List String) :
    ∀ acc : List String, acc.Nodup → (l.foldl insertAddr acc).Nodup := by
  induction l with
  | nil => intro acc h; exact h
  | cons a as ih =>
    intro acc h
    simp only [List.foldl_cons]
    apply ih
    unfold insertAddr
    by_cases ha : a ∈ acc
    · rwa [if_pos ha]
    · rw [if_neg ha]
      simp [List.nodup_append, h, ha]

/-- C9: output invariant of inference: for every successful inference
call, the returned address sequence has no duplicates and equals the
first-occurrence deduplication of the resolved local paths in occurrence
order (first insertion wins position), and
`sibling_dependencies_inferrable` is `false` unconditionally. -/
theorem infer_output_invariant (anchor : String) (refs : List ModuleRef)
    (out : InferredDependencies) (h : infer anchor refs = .ok out) :
    out.addresses.Nodup
    ∧ out.sibling_dependencies_inferrable = false
    ∧ ∃ raw, resolvedLocalPaths anchor refs = .ok raw
        ∧ out.addresses = dedupFirst raw := by
  unfold infer at h
  rw [inferGo_eq_fold] at h
  cases hr : resolvedLocalPaths anchor refs with
  | error e =>
    rw [hr] at h
    exact Except.noConfusion h
  | ok raw =>
    rw [hr] at h
    simp only [Except.map, Except.ok.injEq] at h
    subst h
    exact ⟨foldl_insertAddr_nodup raw [] List.nodup_nil, rfl, raw, rfl, rfl⟩

/-- Witness for C9 at a concrete input: inferring a unit `foo` with two
references to `./x` succeeds with the single deduplicated address
`foo/x`, no duplicates and the flag `false`. -/
theorem infer_output_invariant_witness :
    (infer "foo" [⟨"a", "./x"⟩, ⟨"b", "./x"⟩]
        = .ok ⟨["foo/x"], false⟩)
    ∧ ((InferredDependencies.mk ["foo/x"] false).addresses.Nodup
        ∧ (InferredDependencies.mk ["foo/x"] false).sibling_dependencies_inferrable = false
        ∧ ∃ raw, resolvedLocalPaths "foo" [⟨"a", "./x"⟩, ⟨"b", "./x"⟩] = .ok raw
            ∧ (InferredDependencies.mk ["foo/x"] false).addresses = dedupFirst raw) :=
  ⟨rfl, infer_output_invariant "foo" [⟨"a", "./x"⟩, ⟨"b", "./x"⟩] ⟨["foo/x"], false⟩ rfl⟩
